import Mathlib

/-!
Shallow embedding of `lvsr/firsttry/__init__.py` (attention-based phoneme
recognizer driver).  Pure Python functions become Lean functions; the
numeric pipeline is modelled over exact arithmetic (`ℚ`, `ℝ`), with a
dedicated value type carrying a non-finite marker where IEEE NaN/Inf
matters.  Library behaviour of blocks/fuel that the script calls but that
is not part of `src/` (step rules, stream transformers, the main loop, the
beam search, numpy's assert_allclose) is modelled from the specification
and marked as such in the doc comments.
-/

namespace Firsttry

/-! ### Configuration (`Config`, `default_config`, `main.rec_update`) -/

/-- A configuration value: a scalar (number or string), a list, or a nested
`Config` mapping.  Mirrors what `default_config` in the source stores. -/
inductive CVal where
  | num (q : ℚ)
  | str (s : String)
  | boolv (b : Bool)
  | list (l : List (String × String × String))
  | config (c : List (String × CVal))

/-- Python `dict.get`: first binding for the key, `none` when absent.
Python dicts are modelled as association lists preserving insertion
order. -/
def dictGet (d : List (String × α)) (k : String) : Option α :=
  match d with
  | [] => none
  | (k', v) :: rest => if k' = k then some v else dictGet rest k

/-- Python `d[key] = value`: replace the existing binding in place, or
append a new binding when the key is absent. -/
def dictSet (d : List (String × α)) (k : String) (v : α) :
    List (String × α) :=
  match d with
  | [] => [(k, v)]
  | (k', v') :: rest =>
      if k' = k then (k', v) :: rest else (k', v') :: dictSet rest k v

/-- A `Config` is a dict from string keys to values. -/
abbrev Config := List (String × CVal)

/-- `default_config()` from the source: the recognized keys and their
default values (`net`, `initialization`, `data`). -/
def default_config : Config :=
  [("net", .config
      [("dim_dec", .num 100), ("dim_bidir", .num 100),
       ("dims_bottom", .config [("0", .num 100)]),
       ("enc_transition", .str "SimpleRecurrent"),
       ("dec_transition", .str "SimpleRecurrent"),
       ("attention_type", .str "content"),
       ("use_states_for_readout", .boolv false)]),
   ("initialization", .list
      [("/recognizer", "weights_init", "IsotropicGaussian(0.1)"),
       ("/recognizer", "biases_init", "Constant(0.0)"),
       ("/recognizer", "rec_weights_init", "Orthogonal()")]),
   ("data", .config [("batch_size", .num 10)])]

/-- `main.rec_update(conf, chg)`: for each changed binding in order —
if the present value is a nested `Config` and the change is one, recurse;
if the present value is a list, extend it; otherwise assign the changed
value (this branch also fires when the key is absent, since
`conf.get(key)` is then `None`).  Fuel bounds the nesting depth; the
source recursion terminates because config nesting is finite. -/
def recUpdateGo : Nat → Config → Config → Config
  | 0, conf, _ => conf
  | fuel + 1, conf, chg =>
      chg.foldl (fun c kv =>
        match dictGet c kv.1, kv.2 with
        | some (.config sub), .config chgSub =>
            dictSet c kv.1 (.config (recUpdateGo fuel sub chgSub))
        | some (.list l), .list chgL => dictSet c kv.1 (.list (l ++ chgL))
        | _, _ => dictSet c kv.1 kv.2) conf

/-- `rec_update(conf, chg)` with enough fuel for any practical nesting. -/
def rec_update (conf chg : Config) : Config :=
  recUpdateGo 1000 conf chg

/-! ### Data stream (`_length`, `apply_preprocessing`, `switch_first_two_axes`,
`build_stream`) -/

/-- A recording: a sequence of frames, each a feature vector. -/
abbrev Recording := List (List ℚ)

/-- A dataset example `(recording, label)` as produced by
`dataset.get_example_stream()`. -/
abbrev Example := Recording × List ℕ

/-- `_length(example)`: the frame count `len(example[0])` of the recording. -/
def exLength (e : Example) : ℕ := e.1.length

/-- Python truthiness of an optional integer argument (`None` and `0` are
falsy), as used by `if sort_k_batches:` and `if not batch_size:`. -/
def truthy : Option ℕ → Bool
  | none => false
  | some n => n != 0

/-- Modelled from the spec: fuel backs `Batch(..., ConstantScheme(n))` from
fuel (not under `src/`), which groups the example sequence into consecutive
chunks of `n`, the last chunk possibly smaller.  Fuel is the list length;
each step consumes at least one element when `n > 0`. -/
def chunksGo (n : ℕ) : ℕ → List α → List (List α)
  | 0, _ => []
  | _, [] => []
  | fuel + 1, x :: xs => (x :: xs).take n :: chunksGo n fuel ((x :: xs).drop n)

/-- Consecutive chunks of size `n` (last chunk possibly smaller). -/
def chunks (n : ℕ) (l : List α) : List (List α) := chunksGo n l.length l

/-- Modelled from the spec: `Mapping(stream, SortMapping(_length))` (fuel,
not under `src/`) sorts each chunk ascending by `_length`, stably. -/
def sortStage (bs k : ℕ) (dataset : List Example) : List Example :=
  ((chunks (bs * k) dataset).map
    (fun c => c.mergeSort (fun e₁ e₂ => decide (exLength e₁ ≤ exLength e₂)))).flatten

/-- `apply_preprocessing(preprocessing, example)`: apply the preprocessing
function to the recording, keep the label. -/
def apply_preprocessing (prep : Recording → Recording) (e : Example) :
    Example :=
  (prep e.1, e.2)

/-- An array of the batch tuple, tagged by rank as numpy's `ndim` dispatch
in `switch_first_two_axes` requires (masks and padded labels are 2-d,
padded features are 3-d). -/
inductive NdArr where
  | a2 (m : List (List ℚ))
  | a3 (m : List (List (List ℚ)))

/-- `array.transpose(1, 0)` / `array.transpose(1, 0, 2)` on a rectangular
array: swap the first two axes.  `dflt` is never read on rectangular
input. -/
def transposeFirstTwo (dflt : α) (m : List (List α)) : List (List α) :=
  (List.range (m.headD []).length).map (fun t => m.map (fun row => row.getD t dflt))

/-- `switch_first_two_axes(batch)`: transpose the first two axes of every
array of the batch, dispatching on rank exactly as the source does. -/
def switch_first_two_axes (batch : List NdArr) : List NdArr :=
  batch.map (fun arr =>
    match arr with
    | .a2 m => .a2 (transposeFirstTwo 0 m)
    | .a3 m => .a3 (transposeFirstTwo [] m))

/-- Right-pad a sequence to length `n` with copies of `pad`. -/
def padTo (n : ℕ) (pad : α) (l : List α) : List α :=
  l ++ List.replicate (n - l.length) pad

/-- A mask row: ones over the `len` real positions, zeros over padding. -/
def maskRow (n len : ℕ) : List ℚ :=
  List.replicate len 1 ++ List.replicate (n - len) 0

/-- Max recording length (in frames) over a chunk. -/
def batchMaxRec (chunk : List Example) : ℕ :=
  (chunk.map (fun e => e.1.length)).foldr max 0

/-- Max label length over a chunk. -/
def batchMaxLab (chunk : List Example) : ℕ :=
  (chunk.map (fun e => e.2.length)).foldr max 0

/-- Modelled from the spec: `Padding(stream)` (fuel, not under `src/`) pads
every sequence of a batch with zeros to the batch's max length along the
time axis and appends a binary mask per source, yielding the tuple
`(features, features_mask, labels, labels_mask)` in batch-major layout. -/
def padBatch (chunk : List Example) : List NdArr :=
  let n := batchMaxRec chunk
  let m := batchMaxLab chunk
  [ .a3 (chunk.map (fun e => padTo n (List.replicate (e.1.headD []).length 0) e.1)),
    .a2 (chunk.map (fun e => maskRow n e.1.length)),
    .a2 (chunk.map (fun e => padTo m 0 (e.2.map (fun x => (x : ℚ))))),
    .a2 (chunk.map (fun e => maskRow m e.2.length)) ]

/-- What `build_stream` returns: an unbatched example stream when
`batch_size` is falsy, else a stream of padded, axis-switched batches. -/
inductive StreamResult where
  | examples (l : List Example)
  | batches (l : List (List NdArr))

/-- `build_stream(dataset, batch_size, sort_k_batches, normalization)`.
Streams are modelled as the finite list of items they yield in one epoch.
`prep` stands for `log_spectrogram`, `normalization` for the loaded
`Normalization` object's per-recording transform, both external to the
module.  `ForceFloatX` only casts dtypes and is the identity here.  The
`assert batch_size` guard becomes an `Except.error`. -/
def build_stream (prep : Recording → Recording)
    (normalization : Option (Recording → Recording)) (dataset : List Example)
    (batch_size sort_k_batches : Option ℕ) : Except String StreamResult :=
  (if truthy sort_k_batches then
      if truthy batch_size then
        Except.ok (sortStage (batch_size.getD 0) (sort_k_batches.getD 0) dataset)
      else Except.error "assert batch_size"
    else Except.ok dataset).bind fun sorted =>
  let prepped := sorted.map (apply_preprocessing prep)
  let normed := match normalization with
    | some nz => prepped.map (fun e => (nz e.1, e.2))
    | none => prepped
  if truthy batch_size then
    Except.ok (.batches ((chunks (batch_size.getD 0) normed).map
      (fun c => switch_first_two_axes (padBatch c))))
  else Except.ok (.examples normed)

/-! ### Training loop termination (`_gradient_norm_is_none`, the
`FinishAfter` conditions of `main`) -/

/-- A monitored scalar as a float: either NaN or an exact value. -/
inductive FQ where
  | nan
  | num (q : ℚ)
  deriving DecidableEq

/-- `math.isnan` on a monitored value. -/
def FQ.isnan : FQ → Bool
  | .nan => true
  | .num _ => false

/-- `_gradient_norm_is_none(log)`: whether the `total_gradient_norm`
entry of the log's current row is NaN.  The log row after batch `i` is
the recorded norm `norms i`. -/
def gradient_norm_is_none (norms : ℕ → FQ) (i : ℕ) : Bool :=
  (norms i).isnan

/-- Modelled from the spec: the blocks `MainLoop` with
`FinishAfter(after_n_batches=num_batches).add_condition("after_batch",
_gradient_norm_is_none)` (blocks, not under `src/`).  Performs batch-steps
`start, start+1, ...`; after each batch the finish conditions are checked:
the batch budget (fuel reaching zero) or a NaN recorded gradient norm
stops the loop.  Returns the indices of the batch-steps performed. -/
def loopGo (norms : ℕ → FQ) : ℕ → ℕ → List ℕ
  | 0, _ => []
  | fuel + 1, i =>
      i :: (if gradient_norm_is_none norms i then [] else loopGo norms fuel (i + 1))

/-- The trace of batch-steps performed by `main_loop.run()` for mode
`train` with `num_batches` configured. -/
def trainingTrace (norms : ℕ → FQ) (numBatches : ℕ) : List ℕ :=
  loopGo norms numBatches 0

/-! ### Gradient step rules (`GradientDescent(... step_rule=CompositeRule(
[StepClipping(100.0), Scale(0.01), RemoveNotFinite(0.0)]))`) -/

/-- Sum of squares of a flat list of step entries. -/
noncomputable def l2normSq (g : List ℝ) : ℝ := (g.map (fun x => x * x)).sum

/-- The global L2 norm over all step entries. -/
noncomputable def l2norm (g : List ℝ) : ℝ := Real.sqrt (l2normSq g)

/-- Modelled from the spec: the multiplier of blocks' `StepClipping`
(blocks, not under `src/`):
`switch(norm < threshold, 1, threshold / norm)`. -/
noncomputable def clipMultiplier (t : ℝ) (g : List ℝ) : ℝ :=
  if l2norm g < t then 1 else t / l2norm g

/-- `StepClipping(t)` on an all-finite collection of steps: every step is
multiplied by the common clipping multiplier. -/
noncomputable def stepClipping (t : ℝ) (g : List ℝ) : List ℝ :=
  g.map (fun x => x * clipMultiplier t g)

/-- A step/gradient entry as a float: either finite with an exact value,
or a non-finite marker (NaN/Inf), which is absorbing for arithmetic. -/
inductive FV where
  | nonFin
  | num (x : ℝ)

/-- Whether the entry is finite. -/
def FV.isFin : FV → Bool
  | .nonFin => false
  | .num _ => true

/-- The value of a finite entry (junk `0` on the non-finite marker, which
callers only use under an all-finite guard). -/
noncomputable def FV.toReal : FV → ℝ
  | .nonFin => 0
  | .num x => x

/-- Multiplication with absorbing non-finite marker. -/
noncomputable def FV.mul : FV → FV → FV
  | .num a, .num b => .num (a * b)
  | _, _ => .nonFin

/-- Subtraction with absorbing non-finite marker. -/
noncomputable def FV.sub : FV → FV → FV
  | .num a, .num b => .num (a - b)
  | _, _ => .nonFin

/-- The step rules the source composes (each parameter is modelled as one
scalar entry; a non-finite entry stands for a tensor containing a
non-finite element). -/
inductive StepRule where
  | stepClip (t : ℝ)
  | scale (c : ℝ)
  | removeNotFinite (s : ℝ)

/-- Modelled from the spec: one blocks step rule applied to the current
steps (blocks, not under `src/`).  `StepClipping` scales all steps by the
common multiplier; a non-finite entry makes the global norm non-finite,
which poisons every step.  `Scale(c)` multiplies each step by the learning
rate.  `RemoveNotFinite(s)` replaces a parameter's non-finite step by
`s * parameter`. -/
noncomputable def applyRule (params : List ℝ) : StepRule → List FV → List FV
  | .stepClip t, steps =>
      if steps.all FV.isFin then
        steps.map (fun s => FV.num (s.toReal * clipMultiplier t (steps.map FV.toReal)))
      else steps.map (fun _ => FV.nonFin)
  | .scale c, steps => steps.map (fun s => (FV.num c).mul s)
  | .removeNotFinite s, steps =>
      List.zipWith (fun p st =>
        match st with
        | FV.nonFin => FV.num (s * p)
        | FV.num x => FV.num x) params steps

/-- Modelled from the spec: `CompositeRule(rules)` (blocks, not under
`src/`) threads the steps through its child rules in list order. -/
noncomputable def compositeRule (rules : List StepRule) (params : List ℝ)
    (steps : List FV) : List FV :=
  rules.foldl (fun st r => applyRule params r st) steps

/-- The step rule built in `main` (mode `train`):
`CompositeRule([StepClipping(100.0), Scale(0.01), RemoveNotFinite(0.0)])`. -/
noncomputable def trainStepRules : List StepRule :=
  [.stepClip 100, .scale (1 / 100), .removeNotFinite 0]

/-- Modelled from the spec: the parameter update of blocks'
`GradientDescent` (blocks, not under `src/`): `param ← param − step`. -/
noncomputable def updateParams (params : List ℝ) (steps : List FV) : List FV :=
  List.zipWith (fun p st => (FV.num p).sub st) params steps

/-- One batch-step's parameter update with the source's step rule: the raw
gradients go through the composite rule, then the parameters are
updated. -/
noncomputable def trainingStep (params : List ℝ) (grads : List FV) : List FV :=
  updateParams params (compositeRule trainStepRules params grads)

/-- Modelled from the spec: the claimed first pipeline stage, in the
spec's words — "clip the gradient's global norm to the configured
ceiling": a gradient whose global norm is at most the ceiling is
unchanged, otherwise it is rescaled to norm equal to the ceiling. -/
noncomputable def specClipStage (t : ℝ) (g : List ℝ) : List ℝ :=
  if l2norm g ≤ t then g else g.map (fun x => x * (t / l2norm g))

/-- Modelled from the spec: the claimed third pipeline stage, in the
spec's words — "replace any non-finite per-parameter step with the
configured fallback value (zero)". -/
noncomputable def specReplaceStage (steps : List FV) : List FV :=
  steps.map (fun st =>
    match st with
    | FV.nonFin => FV.num 0
    | FV.num x => FV.num x)

/-! ### Attention weights (`PhonemeRecognizerBrick.cost` and the masked
softmax of the attention brick) -/

/-- Modelled from the spec: the masked softmax of the attention module
(blocks' `SequenceContentAttention`, not under `src/`): exponentiated
energies are zeroed at masked positions and renormalized over the rest.
(The max-logit shift used for numerical stability cancels exactly in
exact arithmetic.) -/
noncomputable def maskedSoftmax (energies : List ℝ) (mask : List Bool) :
    List ℝ :=
  let z := (List.zipWith (fun e m => if m then Real.exp e else 0) energies mask).sum
  List.zipWith (fun e m => (if m then Real.exp e else 0) / z) energies mask

/-- The attention weights of one decoder step of
`PhonemeRecognizerBrick.cost` for one example: the source passes
`attended_mask=recordings_mask`, so the recordings mask is the mask used
by the masked softmax. -/
noncomputable def costAttentionWeights (recordings_mask : List Bool)
    (energies : List ℝ) : List ℝ :=
  maskedSoftmax energies recordings_mask

/-! ### Attribute lookup on `PhonemeRecognizer` (`__init__`,
`init_beam_search`, the `beam_search` method) -/

/-- Values an instance attribute of `PhonemeRecognizer` can hold. -/
inductive AttrVal where
  | brick
  | theanoVar (name : String)
  | natVal (n : ℕ)
  | beamSearchObj (beamSize : ℕ)
  | compiledFn
  deriving DecidableEq

/-- The instance `__dict__`. -/
abbrev InstanceDict := List (String × AttrVal)

/-- The methods defined on the class `PhonemeRecognizer`. -/
def classMethods : List String :=
  ["__init__", "load_params", "get_generate_graph", "get_cost_graph",
   "analyze", "init_beam_search", "beam_search"]

/-- Outcome of Python attribute lookup on an instance. -/
inductive Looked where
  | fromInstance (v : AttrVal)
  | boundMethod (name : String)
  | attributeError
  deriving DecidableEq

/-- Python attribute lookup for plain-function class attributes
(non-data descriptors): the instance `__dict__` takes precedence over the
class, and a miss in both raises `AttributeError`. -/
def getattr (d : InstanceDict) (name : String) : Looked :=
  match dictGet d name with
  | some v => .fromInstance v
  | none => if name ∈ classMethods then .boundMethod name else .attributeError

/-- The instance dict `PhonemeRecognizer.__init__` builds (source lines
240–248).  Note there is neither a `recognizer` nor a `generator` entry:
no method ever assigns `self.recognizer` or `self.generator`. -/
def initDict : InstanceDict :=
  [("brick", .brick),
   ("recordings", .theanoVar "recordings"),
   ("recordings_mask", .theanoVar "recordings_mask"),
   ("labels", .theanoVar "labels"),
   ("labels_mask", .theanoVar "labels_mask"),
   ("single_recording", .theanoVar "single_recording"),
   ("single_transcription", .theanoVar "single_transcription")]

/-- The attribute-mutating operations a client can perform on a
`PhonemeRecognizer` instance after construction. -/
inductive POp where
  | initBeamSearchOp (beamSize : ℕ)
  | loadParamsOp
  | analyzeOp
  deriving DecidableEq

/-- Effect of each operation: the instance dict afterwards, and the name
of the attribute whose lookup raised `AttributeError`, if any.
`init_beam_search` (source lines 279–286) first assigns `self.beam_size`
(line 280), then dereferences `self.generator` (line 283); the lookup is
modelled faithfully — were it to succeed, the method would go on to
assign `self.beam_search = BeamSearch(...)` (line 285) — but `generator`
is never an instance attribute and is not a class attribute either, so
the method raises there and the `beam_search` assignment never executes.
`load_params` assigns nothing; `analyze` caches a compiled function under
`_analyze` on first use. -/
def applyOp (d : InstanceDict) : POp → InstanceDict × Option String
  | .initBeamSearchOp bs =>
      let d1 := dictSet d "beam_size" (.natVal bs)
      match getattr d1 "generator" with
      | .attributeError => (d1, some "generator")
      | _ => (dictSet d1 "beam_search" (.beamSearchObj bs), none)
  | .loadParamsOp => (d, none)
  | .analyzeOp =>
      (if (dictGet d "_analyze").isSome then d
       else dictSet d "_analyze" .compiledFn, none)

/-- Run a call sequence on the freshly-constructed instance; an uncaught
`AttributeError` aborts the run, so no later call executes. -/
def runOpsE : List POp → InstanceDict → InstanceDict × Option String
  | [], d => (d, none)
  | op :: rest, d =>
      match applyOp d op with
      | (d1, some e) => (d1, some e)
      | (d1, none) => runOpsE rest d1

/-- The prelude of `main` in mode `search` (source lines 457–459): the
`PhonemeRecognizer` is constructed and `init_beam_search(10)` is called
before the utterance loop starts. -/
def searchModeInit : InstanceDict × Option String :=
  runOpsE [POp.initBeamSearchOp 10] initDict

/-! ### Search-mode consistency check (`main`, mode `search`) -/

/-- The relative tolerance of the source's check:
`assert_allclose(search_costs[0], costs_recognized.sum(), rtol=1e-5)`. -/
def searchRtol : ℚ := 1 / 100000

/-- Modelled from the spec: numpy's `assert_allclose(actual, desired,
rtol)` (numpy, not under `src/`) raises unless
`|actual − desired| ≤ atol + rtol · |desired|`, with the default
`atol = 0`. -/
def assert_allclose (actual desired rtol : ℚ) : Except String Unit :=
  if |actual - desired| ≤ rtol * |desired| then Except.ok ()
  else Except.error "Not equal to tolerance"

/-- The per-utterance tail of the search-mode loop: each iteration ends by
re-scoring the beam winner through the teacher-forced cost path and
asserting the beam's reported cost matches within `rtol=1e-5`.  Each pair
is `(beam cost, rescored teacher-forced cost)` of one utterance. -/
def searchLoopCheck : List (ℚ × ℚ) → Except String Unit
  | [] => Except.ok ()
  | (s, r) :: rest =>
      (assert_allclose s r searchRtol).bind fun _ => searchLoopCheck rest

/-! ## Helper lemmas -/

theorem dictGet_dictSet_self (d : List (String × α)) (k : String) (v : α) :
    dictGet (dictSet d k v) k = some v := by
  induction d with
  | nil => simp [dictSet, dictGet]
  | cons hd tl ih =>
      obtain ⟨k', v'⟩ := hd
      by_cases h : k' = k
      · simp [dictSet, dictGet, h]
      · simp [dictSet, dictGet, h, ih]

theorem dictGet_dictSet_ne (d : List (String × α)) (k k' : String) (v : α)
    (h : k ≠ k') : dictGet (dictSet d k v) k' = dictGet d k' := by
  induction d with
  | nil => simp [dictSet, dictGet, h]
  | cons hd tl ih =>
      obtain ⟨k₀, v₀⟩ := hd
      by_cases h₀ : k₀ = k
      · subst h₀; simp [dictSet, dictGet, h]
      · simp [dictSet, dictGet, h₀, ih]

theorem recUpdateGo_succ (fuel : ℕ) (conf chg : Config) :
    recUpdateGo (fuel + 1) conf chg =
      chg.foldl (fun c kv =>
        match dictGet c kv.1, kv.2 with
        | some (.config sub), .config chgSub =>
            dictSet c kv.1 (.config (recUpdateGo fuel sub chgSub))
        | some (.list l), .list chgL => dictSet c kv.1 (.list (l ++ chgL))
        | _, _ => dictSet c kv.1 kv.2) conf := rfl

theorem rec_update_single_unknown (conf : Config) (k : String) (v : CVal)
    (h : dictGet conf k = none) :
    rec_update conf [(k, v)] = dictSet conf k v := by
  show recUpdateGo 1000 conf [(k, v)] = _
  rw [show (1000 : ℕ) = 999 + 1 from rfl, recUpdateGo_succ]
  cases v <;> simp [List.foldl_cons, List.foldl_nil, h]

theorem loopGo_all_num (norms : ℕ → FQ) (fuel start : ℕ)
    (h : ∀ i, start ≤ i → i < start + fuel → (norms i).isnan = false) :
    loopGo norms fuel start = List.range' start fuel := by
  induction fuel generalizing start with
  | zero => rfl
  | succ n ih =>
      have hs : (norms start).isnan = false :=
        h start Nat.le.refl (by omega)
      simp only [loopGo, gradient_norm_is_none, hs, if_false, Bool.false_eq_true]
      rw [List.range'_succ]
      congr 1
      exact ih (start + 1) (fun i h₁ h₂ => h i (by omega) (by omega))

theorem loopGo_nan_at (norms : ℕ → FQ) (fuel start i : ℕ)
    (hli : start ≤ i) (hui : i < start + fuel)
    (hnan : (norms i).isnan = true)
    (hpre : ∀ j, start ≤ j → j < i → (norms j).isnan = false) :
    loopGo norms fuel start = List.range' start (i + 1 - start) := by
  induction fuel generalizing start with
  | zero => omega
  | succ n ih =>
      by_cases hs : start = i
      · subst hs
        simp only [loopGo, gradient_norm_is_none, hnan, if_true]
        have : start + 1 - start = 1 := by omega
        rw [this, List.range'_succ]
        rfl
      · have hlt : start < i := by omega
        have h₀ : (norms start).isnan = false := hpre start Nat.le.refl hlt
        simp only [loopGo, gradient_norm_is_none, h₀, if_false, Bool.false_eq_true]
        have hrange : i + 1 - start = (i + 1 - (start + 1)) + 1 := by omega
        rw [hrange, List.range'_succ]
        congr 1
        exact ih (start + 1) (by omega) (by omega)
          (fun j h₁ h₂ => hpre j (by omega) h₂)

theorem applyOp_initBeamSearch_eq (d : InstanceDict) (bs : ℕ)
    (hg : dictGet d "generator" = none) :
    applyOp d (.initBeamSearchOp bs)
      = (dictSet d "beam_size" (.natVal bs), some "generator") := by
  have h1 : dictGet (dictSet d "beam_size" (AttrVal.natVal bs)) "generator"
      = none := by
    rw [dictGet_dictSet_ne d "beam_size" "generator" (.natVal bs) (by decide)]
    exact hg
  have h2 : getattr (dictSet d "beam_size" (AttrVal.natVal bs)) "generator"
      = .attributeError := by
    rw [getattr, h1]
    decide
  simp only [applyOp, h2]

theorem applyOp_preserves_clean (d : InstanceDict) (op : POp)
    (hg : dictGet d "generator" = none)
    (hb : dictGet d "beam_search" = none)
    (hr : dictGet d "recognizer" = none) :
    dictGet (applyOp d op).1 "generator" = none ∧
    dictGet (applyOp d op).1 "beam_search" = none ∧
    dictGet (applyOp d op).1 "recognizer" = none := by
  cases op with
  | initBeamSearchOp bs =>
      rw [applyOp_initBeamSearch_eq d bs hg]
      refine ⟨?_, ?_, ?_⟩
      · rw [dictGet_dictSet_ne d "beam_size" "generator" (.natVal bs)
          (by decide)]
        exact hg
      · rw [dictGet_dictSet_ne d "beam_size" "beam_search" (.natVal bs)
          (by decide)]
        exact hb
      · rw [dictGet_dictSet_ne d "beam_size" "recognizer" (.natVal bs)
          (by decide)]
        exact hr
  | loadParamsOp => exact ⟨hg, hb, hr⟩
  | analyzeOp =>
      by_cases hc : (dictGet d "_analyze").isSome
      · simpa [applyOp, hc] using ⟨hg, hb, hr⟩
      · have he : applyOp d .analyzeOp
            = (dictSet d "_analyze" .compiledFn, none) := by
          simp [applyOp, hc]
        rw [he]
        refine ⟨?_, ?_, ?_⟩
        · rw [dictGet_dictSet_ne d "_analyze" "generator" .compiledFn
            (by decide)]
          exact hg
        · rw [dictGet_dictSet_ne d "_analyze" "beam_search" .compiledFn
            (by decide)]
          exact hb
        · rw [dictGet_dictSet_ne d "_analyze" "recognizer" .compiledFn
            (by decide)]
          exact hr

theorem runOpsE_clean (ops : List POp) :
    ∀ d : InstanceDict, dictGet d "generator" = none →
      dictGet d "beam_search" = none → dictGet d "recognizer" = none →
      dictGet (runOpsE ops d).1 "generator" = none ∧
      dictGet (runOpsE ops d).1 "beam_search" = none ∧
      dictGet (runOpsE ops d).1 "recognizer" = none := by
  induction ops with
  | nil => intro d hg hb hr; exact ⟨hg, hb, hr⟩
  | cons op rest ih =>
      intro d hg hb hr
      obtain ⟨h1, h2, h3⟩ := applyOp_preserves_clean d op hg hb hr
      rcases happ : applyOp d op with ⟨d1, oe⟩
      rw [happ] at h1 h2 h3
      cases oe with
      | some e => simpa [runOpsE, happ] using ⟨h1, h2, h3⟩
      | none =>
          simp only [runOpsE, happ]
          exact ih d1 h1 h2 h3

theorem runOpsE_mem_raises (ops : List POp) :
    ∀ d : InstanceDict, dictGet d "generator" = none →
      (∃ bs, POp.initBeamSearchOp bs ∈ ops) →
      (runOpsE ops d).2 = some "generator" := by
  induction ops with
  | nil =>
      intro d hg hmem
      obtain ⟨bs, hbs⟩ := hmem
      cases hbs
  | cons op rest ih =>
      intro d hg hmem
      obtain ⟨bs, hbs⟩ := hmem
      cases op with
      | initBeamSearchOp bs' =>
          simp [runOpsE, applyOp_initBeamSearch_eq d bs' hg]
      | loadParamsOp =>
          have hmem' : ∃ b, POp.initBeamSearchOp b ∈ rest := by
            rcases List.mem_cons.mp hbs with heq | hm
            · cases heq
            · exact ⟨bs, hm⟩
          simpa [runOpsE, applyOp] using ih d hg hmem'
      | analyzeOp =>
          have hmem' : ∃ b, POp.initBeamSearchOp b ∈ rest := by
            rcases List.mem_cons.mp hbs with heq | hm
            · cases heq
            · exact ⟨bs, hm⟩
          by_cases hc : (dictGet d "_analyze").isSome
          · simpa [runOpsE, applyOp, hc] using ih d hg hmem'
          · have hg' : dictGet (dictSet d "_analyze" AttrVal.compiledFn)
                "generator" = none := by
              rw [dictGet_dictSet_ne d "_analyze" "generator" .compiledFn
                (by decide)]
              exact hg
            simpa [runOpsE, applyOp, hc] using ih _ hg' hmem'

theorem getattr_of_none_beam_search (d : InstanceDict)
    (h : dictGet d "beam_search" = none) :
    getattr d "beam_search" = .boundMethod "beam_search" := by
  rw [getattr, h]
  decide

theorem getattr_of_none_recognizer (d : InstanceDict)
    (h : dictGet d "recognizer" = none) :
    getattr d "recognizer" = .attributeError := by
  rw [getattr, h]
  decide

theorem map_id_of_mem (l : List α) (f : α → α) (h : ∀ x ∈ l, f x = x) :
    l.map f = l := by
  induction l with
  | nil => rfl
  | cons a tl ih =>
      simp only [List.map_cons, h a (List.mem_cons_self a tl)]
      rw [ih (fun x hx => h x (List.mem_cons_of_mem a hx))]

theorem l2normSq_cons (a : ℝ) (g : List ℝ) :
    l2normSq (a :: g) = a * a + l2normSq g := by
  simp [l2normSq]

theorem l2normSq_nonneg (g : List ℝ) : 0 ≤ l2normSq g := by
  refine List.sum_nonneg ?_
  intro x hx
  obtain ⟨y, _, rfl⟩ := List.mem_map.mp hx
  exact mul_self_nonneg y

theorem l2norm_nonneg (g : List ℝ) : 0 ≤ l2norm g := Real.sqrt_nonneg _

theorem entries_zero_of_l2normSq_zero (g : List ℝ) (h : l2normSq g = 0) :
    ∀ x ∈ g, x = 0 := by
  induction g with
  | nil => intro x hx; cases hx
  | cons a tl ih =>
      rw [l2normSq_cons] at h
      have ha : a * a = 0 := by
        have h1 := mul_self_nonneg a
        have h2 := l2normSq_nonneg tl
        linarith
      have htl : l2normSq tl = 0 := by
        have h1 := mul_self_nonneg a
        have h2 := l2normSq_nonneg tl
        linarith
      intro x hx
      rcases List.mem_cons.mp hx with rfl | hmem
      · exact mul_self_eq_zero.mp ha
      · exact ih htl x hmem

theorem entries_zero_of_l2norm_zero (g : List ℝ) (h : l2norm g = 0) :
    ∀ x ∈ g, x = 0 :=
  entries_zero_of_l2normSq_zero g
    ((Real.sqrt_eq_zero (l2normSq_nonneg g)).mp h)

theorem l2normSq_map_mul (g : List ℝ) (c : ℝ) :
    l2normSq (g.map (fun x => x * c)) = l2normSq g * (c * c) := by
  induction g with
  | nil => simp [l2normSq]
  | cons a tl ih =>
      simp only [List.map_cons, l2normSq_cons, ih]
      ring

theorem l2norm_map_mul (g : List ℝ) (c : ℝ) :
    l2norm (g.map (fun x => x * c)) = l2norm g * |c| := by
  rw [l2norm, l2normSq_map_mul, Real.sqrt_mul (l2normSq_nonneg g), l2norm]
  congr 1
  rw [show c * c = c ^ 2 by ring, Real.sqrt_sq_eq_abs]

theorem stepClipping_of_norm_le (g : List ℝ) (t : ℝ)
    (h : l2norm g ≤ t) : stepClipping t g = g := by
  rcases lt_or_eq_of_le h with hlt | heq
  · rw [stepClipping, clipMultiplier, if_pos hlt]
    exact map_id_of_mem g _ (fun x _ => mul_one x)
  · by_cases ht : t = 0
    · subst ht
      refine map_id_of_mem g _ (fun x hx => ?_)
      rw [entries_zero_of_l2norm_zero g heq x hx, zero_mul]
    · rw [stepClipping, clipMultiplier, heq, if_neg (lt_irrefl t),
        div_self ht]
      exact map_id_of_mem g _ (fun x _ => mul_one x)

theorem l2norm_stepClipping_le (g : List ℝ) (t : ℝ) (h0 : 0 ≤ t) :
    l2norm (stepClipping t g) ≤ t := by
  by_cases h : l2norm g < t
  · rw [stepClipping_of_norm_le g t (le_of_lt h)]
    exact le_of_lt h
  · push_neg at h
    rw [stepClipping, clipMultiplier, if_neg (not_lt.mpr h), l2norm_map_mul]
    by_cases hz : l2norm g = 0
    · rw [hz, zero_mul]; exact h0
    · have hpos : 0 < l2norm g := lt_of_le_of_ne (l2norm_nonneg g)
        (Ne.symm hz)
      rw [abs_of_nonneg (div_nonneg h0 (le_of_lt hpos)),
        mul_div_cancel₀ t hz]

/-! ## Claims -/

/-- C1: the per-utterance consistency check of search mode — the loop
continues past an utterance exactly when the beam's reported cumulative
cost and the summed teacher-forced re-scoring cost agree within `1e-5`
relative tolerance, and it raises (returns an error, performing no further
utterances) whenever some utterance's two costs disagree beyond that
tolerance. -/
theorem searchLoopCheck_ok_iff_allclose (costs : List (ℚ × ℚ)) :
    (searchLoopCheck costs = Except.ok () ↔
      ∀ p ∈ costs, |p.1 - p.2| ≤ searchRtol * |p.2|) ∧
    (searchLoopCheck costs ≠ Except.ok () →
      ∃ msg, searchLoopCheck costs = Except.error msg) := by
  constructor
  · induction costs with
    | nil => simp [searchLoopCheck]
    | cons p rest ih =>
        obtain ⟨s, r⟩ := p
        by_cases h : |s - r| ≤ searchRtol * |r|
        · simp [searchLoopCheck, assert_allclose, h, Except.bind, ih]
        · simp [searchLoopCheck, assert_allclose, h, Except.bind]
  · intro hne
    cases hc : searchLoopCheck costs with
    | ok u => cases u; exact absurd hc hne
    | error msg => exact ⟨msg, rfl⟩

/-- C1 (witness): on an utterance whose beam cost `1` is reproduced
exactly by re-scoring, the check passes; on an utterance whose beam cost
`2` disagrees with the re-scored cost `1` beyond the tolerance, the check
raises. -/
theorem searchLoopCheck_ok_iff_allclose_witness :
    searchLoopCheck [((1 : ℚ), (1 : ℚ))] = Except.ok () ∧
    (∃ msg, searchLoopCheck [((2 : ℚ), (1 : ℚ))] = Except.error msg) :=
  ⟨(searchLoopCheck_ok_iff_allclose [((1 : ℚ), (1 : ℚ))]).1.mpr
      (by intro p hp; rw [List.mem_singleton] at hp; subst hp
          norm_num [searchRtol]),
   (searchLoopCheck_ok_iff_allclose [((2 : ℚ), (1 : ℚ))]).2
      (by intro hok
          have := (searchLoopCheck_ok_iff_allclose
            [((2 : ℚ), (1 : ℚ))]).1.mp hok ((2 : ℚ), (1 : ℚ))
            (List.mem_singleton.mpr rfl)
          norm_num [searchRtol] at this)⟩

/-- C10 (counterexample): after `__init__` followed by
`init_beam_search(10)`, the claimed shadowing does not happen: the call
assigns `beam_size` and then raises `AttributeError` at the
`self.generator` dereference, so `beam_search` is never assigned and
attribute lookup of `beam_search` still yields the class's method, not a
`BeamSearch` instance attribute. -/
theorem beam_search_not_shadowed_cex :
    (runOpsE [POp.initBeamSearchOp 10] initDict).2 = some "generator" ∧
    dictGet (runOpsE [POp.initBeamSearchOp 10] initDict).1 "beam_size"
      = some (.natVal 10) ∧
    dictGet (runOpsE [POp.initBeamSearchOp 10] initDict).1 "beam_search"
      = none ∧
    getattr (runOpsE [POp.initBeamSearchOp 10] initDict).1 "beam_search"
      = .boundMethod "beam_search" ∧
    (∀ bs, getattr (runOpsE [POp.initBeamSearchOp 10] initDict).1
      "beam_search" ≠ .fromInstance (.beamSearchObj bs)) := by
  refine ⟨by decide, by decide, by decide, by decide, ?_⟩
  intro bs h
  have h2 : getattr (runOpsE [POp.initBeamSearchOp 10] initDict).1
      "beam_search" = .boundMethod "beam_search" := by decide
  rw [h2] at h
  exact Looked.noConfusion h

/-- C10 (amended): calling `init_beam_search` on a `PhonemeRecognizer`
instance assigns `beam_size` and then raises `AttributeError` at the
`self.generator` dereference (source line 283; the attribute is never
assigned) before the `self.beam_search = BeamSearch(...)` assignment of
line 285 executes; hence after any sequence of method calls no instance
attribute shadows the class's `beam_search` method — attribute lookup
still yields the class method, a call sequence containing
`init_beam_search` raises — and the `self.recognizer` attribute that
method's body dereferences is likewise never assigned, so its lookup
raises `AttributeError`. -/
theorem init_beam_search_raises_no_shadow (ops : List POp) :
    getattr (runOpsE ops initDict).1 "beam_search"
      = .boundMethod "beam_search" ∧
    getattr (runOpsE ops initDict).1 "recognizer" = .attributeError ∧
    (∀ bs, (applyOp (runOpsE ops initDict).1 (POp.initBeamSearchOp bs)).2
      = some "generator") ∧
    ((∃ bs, POp.initBeamSearchOp bs ∈ ops) →
      (runOpsE ops initDict).2 = some "generator") := by
  obtain ⟨hg, hb, hr⟩ := runOpsE_clean ops initDict (by decide) (by decide)
    (by decide)
  exact ⟨getattr_of_none_beam_search _ hb, getattr_of_none_recognizer _ hr,
    fun bs => by rw [applyOp_initBeamSearch_eq _ bs hg],
    fun hmem => runOpsE_mem_raises ops initDict (by decide) hmem⟩

/-- C10 (witness): `load_params` followed by `init_beam_search(7)` —
the run raises at the `generator` dereference and `beam_search` still
resolves to the class method. -/
theorem init_beam_search_raises_no_shadow_witness :
    (∃ bs, POp.initBeamSearchOp bs
      ∈ [POp.loadParamsOp, POp.initBeamSearchOp 7]) ∧
    getattr (runOpsE [POp.loadParamsOp, POp.initBeamSearchOp 7]
      initDict).1 "beam_search" = .boundMethod "beam_search" ∧
    (runOpsE [POp.loadParamsOp, POp.initBeamSearchOp 7] initDict).2
      = some "generator" :=
  ⟨⟨7, by decide⟩,
   (init_beam_search_raises_no_shadow
      [POp.loadParamsOp, POp.initBeamSearchOp 7]).1,
   (init_beam_search_raises_no_shadow
      [POp.loadParamsOp, POp.initBeamSearchOp 7]).2.2.2 ⟨7, by decide⟩⟩

/-- C2: in training mode, if the aggregated gradient norm recorded after
some batch-step is NaN (and was not before), the loop performs exactly the
batch-steps up to and including that batch and no further ones; if the
recorded norm is never NaN within the budget, the loop performs exactly
the configured number of batch-steps. -/
theorem trainingTrace_nan_stop_and_budget (norms : ℕ → FQ) (numBatches : ℕ) :
    ((∀ i, i < numBatches → (norms i).isnan = false) →
      trainingTrace norms numBatches = List.range numBatches) ∧
    (∀ i, i < numBatches → (norms i).isnan = true →
      (∀ j, j < i → (norms j).isnan = false) →
      trainingTrace norms numBatches = List.range (i + 1)) := by
  constructor
  · intro h
    rw [trainingTrace, List.range_eq_range']
    exact loopGo_all_num norms numBatches 0 (fun i _ h₂ => h i (by omega))
  · intro i hi hnan hpre
    rw [trainingTrace, List.range_eq_range']
    have := loopGo_nan_at norms numBatches 0 i (by omega) (by omega) hnan
      (fun j _ h₂ => hpre j h₂)
    simpa using this

/-- C2 (witness): with a budget of 5 batches and the recorded gradient
norm becoming NaN after batch 1, the loop performs exactly batches 0 and
1; with no NaN it performs all 3 configured batches. -/
theorem trainingTrace_nan_stop_and_budget_witness :
    trainingTrace (fun _ => FQ.num 1) 3 = List.range 3 ∧
    trainingTrace (fun j => if j = 1 then FQ.nan else FQ.num 1) 5
      = List.range 2 :=
  ⟨(trainingTrace_nan_stop_and_budget (fun _ => FQ.num 1) 3).1
      (fun i _ => rfl),
   (trainingTrace_nan_stop_and_budget
      (fun j => if j = 1 then FQ.nan else FQ.num 1) 5).2 1 (by omega)
      (by decide) (by decide)⟩

/-- C3 (counterexample): loading a configuration with the unrecognized
top-level key `"bogus"` does not fail and does not drop the key —
`rec_update` inserts it, so afterwards the key is present with the
supplied value. -/
theorem rec_update_accepts_unknown_key_cex :
    dictGet (rec_update default_config [("bogus", CVal.num 1)]) "bogus"
      = some (CVal.num 1) ∧
    dictGet (rec_update default_config [("bogus", CVal.num 1)]) "bogus"
      ≠ none := by
  have h1 : dictGet (rec_update default_config [("bogus", CVal.num 1)]) "bogus"
      = some (CVal.num 1) := rfl
  exact ⟨h1, by rw [h1]; exact fun h => Option.noConfusion h⟩

/-- C3 (amended): when a configuration file supplies a key that is not a
recognized key of the default configuration, `rec_update` accepts it
rather than rejecting it: the unknown key is inserted with the supplied
value, at the top level and equally inside a recognized nested
sub-configuration, and loading never fails. -/
theorem rec_update_inserts_unknown_key :
    (∀ (conf : Config) (k : String) (v : CVal), dictGet conf k = none →
      dictGet (rec_update conf [(k, v)]) k = some v) ∧
    (∀ (conf : Config) (k k' : String) (sub : Config) (v : CVal),
      dictGet conf k = some (.config sub) → dictGet sub k' = none →
      dictGet (rec_update conf [(k, .config [(k', v)])]) k
        = some (.config (dictSet sub k' v))) := by
  constructor
  · intro conf k v h
    rw [rec_update_single_unknown conf k v h]
    exact dictGet_dictSet_self conf k v
  · intro conf k k' sub v hk hk'
    have hinner : recUpdateGo 999 sub [(k', v)] = dictSet sub k' v := by
      rw [show (999 : ℕ) = 998 + 1 from rfl, recUpdateGo_succ]
      cases v <;> simp [List.foldl_cons, List.foldl_nil, hk']
    have houter : rec_update conf [(k, .config [(k', v)])]
        = dictSet conf k (.config (recUpdateGo 999 sub [(k', v)])) := by
      show recUpdateGo 1000 conf [(k, .config [(k', v)])] = _
      rw [show (1000 : ℕ) = 999 + 1 from rfl, recUpdateGo_succ]
      simp only [List.foldl_cons, List.foldl_nil, hk]
    rw [houter, hinner]
    exact dictGet_dictSet_self conf k _

/-- C3 (witness): instantiating the amended claim — the unknown top-level
key `"bogus"` and the unknown key `"bogus2"` under the recognized `"net"`
sub-configuration are both inserted by `rec_update`. -/
theorem rec_update_inserts_unknown_key_witness :
    dictGet (rec_update default_config [("bogus", CVal.num 1)]) "bogus"
      = some (CVal.num 1) ∧
    dictGet (rec_update default_config
        [("net", .config [("bogus2", CVal.num 2)])]) "net"
      = some (.config (dictSet
          [("dim_dec", .num 100), ("dim_bidir", .num 100),
           ("dims_bottom", .config [("0", .num 100)]),
           ("enc_transition", .str "SimpleRecurrent"),
           ("dec_transition", .str "SimpleRecurrent"),
           ("attention_type", .str "content"),
           ("use_states_for_readout", .boolv false)] "bogus2" (CVal.num 2))) :=
  ⟨rec_update_inserts_unknown_key.1 default_config "bogus" (CVal.num 1) rfl,
   rec_update_inserts_unknown_key.2 default_config "net" "bogus2" _
     (CVal.num 2) rfl rfl⟩


/-- C9: a gradient whose global norm is already at most the clip value is
left unchanged by the clipping stage, and (for a nonnegative clip value,
as the configured `100.0` is) applying the clipping stage twice with the
same clip value equals applying it once. -/
theorem stepClipping_noop_and_idempotent :
    (∀ (g : List ℝ) (t : ℝ), l2norm g ≤ t → stepClipping t g = g) ∧
    (∀ (g : List ℝ) (t : ℝ), 0 ≤ t →
      stepClipping t (stepClipping t g) = stepClipping t g) :=
  ⟨fun g t h => stepClipping_of_norm_le g t h,
   fun g t h0 =>
     stepClipping_of_norm_le (stepClipping t g) t
       (l2norm_stepClipping_le g t h0)⟩

/-- C9 (witness): the gradient `[3, 4]` has global norm `5 ≤ 100`, so the
configured clipping stage leaves it unchanged, and a second application
is a no-op. -/
theorem stepClipping_noop_and_idempotent_witness :
    l2norm [(3 : ℝ), 4] ≤ 100 ∧
    stepClipping 100 [(3 : ℝ), 4] = [(3 : ℝ), 4] ∧
    stepClipping 100 (stepClipping 100 [(3 : ℝ), 4])
      = stepClipping 100 [(3 : ℝ), 4] := by
  have hsq : l2normSq [(3 : ℝ), 4] = 25 := by
    norm_num [l2normSq]
  have h5 : l2norm [(3 : ℝ), 4] = 5 := by
    rw [l2norm, hsq, show (25 : ℝ) = 5 ^ 2 by norm_num,
      Real.sqrt_sq (by norm_num : (0 : ℝ) ≤ 5)]
  have hle : l2norm [(3 : ℝ), 4] ≤ 100 := by rw [h5]; norm_num
  exact ⟨hle,
    stepClipping_noop_and_idempotent.1 [(3 : ℝ), 4] 100 hle,
    stepClipping_noop_and_idempotent.2 [(3 : ℝ), 4] 100 (by norm_num)⟩

/-- C4: the batch-step gradient transformation is, in this order, norm
clipping to the configured ceiling `100`, scaling by the learning rate
`0.01`, and replacement of non-finite per-parameter steps, followed by
the parameter update; the removal stage with the configured scaler `0`
replaces a non-finite step by exactly zero; and on finite gradients the
clipping stage agrees with the spec's description of clipping the global
norm to the ceiling. -/
theorem trainingStep_pipeline_order :
    (∀ (params : List ℝ) (grads : List FV),
      trainingStep params grads = updateParams params
        (applyRule params (.removeNotFinite 0)
          (applyRule params (.scale (1 / 100))
            (applyRule params (.stepClip 100) grads)))) ∧
    (∀ (params : List ℝ) (steps : List FV),
      params.length = steps.length →
      applyRule params (.removeNotFinite 0) steps = specReplaceStage steps) ∧
    (∀ (params : List ℝ) (grads : List ℝ),
      applyRule params (.stepClip 100) (grads.map FV.num)
        = (specClipStage 100 grads).map FV.num) := by
  refine ⟨fun params grads => rfl, ?_, ?_⟩
  · intro params steps hlen
    induction steps generalizing params with
    | nil => simp [applyRule, specReplaceStage]
    | cons st tl ih =>
        cases params with
        | nil => cases hlen
        | cons p pt =>
            simp only [applyRule, List.zipWith_cons_cons, specReplaceStage,
              List.map_cons]
            have htl := ih pt (by simpa using hlen)
            simp only [applyRule, specReplaceStage] at htl
            rw [htl]
            cases st with
            | nonFin => simp [zero_mul]
            | num x => rfl
  · intro params grads
    have hfin : (grads.map FV.num).all FV.isFin = true := by
      simp [List.all_eq_true, FV.isFin]
    have hback : (grads.map FV.num).map FV.toReal = grads := by
      rw [List.map_map]
      exact map_id_of_mem grads _ (fun x _ => rfl)
    simp only [applyRule, hfin, if_pos, hback, List.map_map]
    by_cases h : l2norm grads < 100
    · rw [specClipStage, if_pos (le_of_lt h)]
      refine List.map_congr_left (fun x _ => ?_)
      simp [clipMultiplier, Function.comp, FV.toReal, if_pos h, mul_one]
    · push_neg at h
      rcases eq_or_lt_of_le h with heq | hlt
      · rw [specClipStage, if_pos (le_of_eq heq.symm)]
        refine List.map_congr_left (fun x _ => ?_)
        simp only [Function.comp, FV.toReal, clipMultiplier, ← heq]
        norm_num
      · rw [specClipStage, if_neg (not_le.mpr hlt), List.map_map]
        refine List.map_congr_left (fun x _ => ?_)
        simp [Function.comp, FV.toReal, clipMultiplier, if_neg (not_lt.mpr h)]

/-- C4 (witness): on one parameter `1` with a non-finite gradient step,
the removal stage of the source pipeline produces exactly the zero step
the spec describes. -/
theorem trainingStep_pipeline_order_witness :
    [(1 : ℝ)].length = [FV.nonFin].length ∧
    applyRule [(1 : ℝ)] (.removeNotFinite 0) [FV.nonFin]
      = specReplaceStage [FV.nonFin] :=
  ⟨rfl, trainingStep_pipeline_order.2.1 [(1 : ℝ)] [FV.nonFin] rfl⟩


theorem sum_map_div (l : List ℝ) (z : ℝ) :
    (l.map (fun x => x / z)).sum = l.sum / z := by
  induction l with
  | nil => simp
  | cons a tl ih => simp [ih, add_div]

theorem maskedExp_nonneg :
    ∀ (e : List ℝ) (m : List Bool),
      ∀ x ∈ List.zipWith (fun e m => if m then Real.exp e else 0) e m,
        0 ≤ x := by
  intro e
  induction e with
  | nil => intro m x hx; simp at hx
  | cons a tl ih =>
      intro m x hx
      cases m with
      | nil => simp at hx
      | cons b mt =>
          simp only [List.zipWith_cons_cons, List.mem_cons] at hx
          rcases hx with rfl | hx
          · by_cases hb : b = true
            · simp [hb, le_of_lt (Real.exp_pos a)]
            · simp [hb]
          · exact ih mt x hx

/-- C5: for every example and decoder step of the teacher-forced cost
path, the attention weight vector computed from the recordings mask (the
mask `cost` passes as `attended_mask`) assigns exactly zero weight to
every masked encoder position, and the weights sum to 1 (the whole sum
equals the sum over unmasked positions, the masked ones being zero)
whenever at least one position is unmasked. -/
theorem costAttentionWeights_masked_zero_sum_one (recordings_mask : List Bool)
    (energies : List ℝ)
    (hlen : recordings_mask.length = energies.length) :
    (∀ i, i < recordings_mask.length →
      recordings_mask.getD i true = false →
      (costAttentionWeights recordings_mask energies).getD i 1 = 0) ∧
    (recordings_mask.any id = true →
      (costAttentionWeights recordings_mask energies).sum = 1) := by
  set u := List.zipWith (fun e m => if m then Real.exp e else 0) energies
    recordings_mask with hu
  have hres : costAttentionWeights recordings_mask energies
      = u.map (fun x => x / u.sum) := by
    rw [costAttentionWeights, maskedSoftmax, List.map_zipWith]
  constructor
  · intro i hi hfalse
    have hie : i < energies.length := hlen ▸ hi
    have hmi : recordings_mask[i]? = some false := by
      rw [List.getElem?_eq_getElem hi]
      rw [List.getD_eq_getElem?_getD, List.getElem?_eq_getElem hi] at hfalse
      simpa using hfalse
    have hui : u[i]? = some 0 := by
      rw [hu, List.getElem?_zipWith, List.getElem?_eq_getElem hie, hmi]
      simp
    rw [hres, List.getD_eq_getElem?_getD, List.getElem?_map, hui]
    simp
  · intro hany
    obtain ⟨b, hb, hbtrue⟩ := List.any_eq_true.mp hany
    obtain ⟨j, hj, hjb⟩ := List.mem_iff_getElem.mp hb
    have hje : j < energies.length := hlen ▸ hj
    have hbt : b = true := by simpa using hbtrue
    have huj : u[j]? = some (Real.exp energies[j]) := by
      rw [hu, List.getElem?_zipWith, List.getElem?_eq_getElem hje,
        List.getElem?_eq_getElem hj, hjb, hbt]
      simp
    have hmem : Real.exp energies[j] ∈ u := by
      obtain ⟨h, hval⟩ := List.getElem?_eq_some.mp huj
      exact hval ▸ List.getElem_mem h
    have hpos : 0 < u.sum :=
      lt_of_lt_of_le (Real.exp_pos energies[j])
        (List.single_le_sum (maskedExp_nonneg energies recordings_mask) _ hmem)
    rw [hres, sum_map_div, div_self (ne_of_gt hpos)]

/-- C5 (witness): with mask `[true, false]` and energies `[0, 5]`, the
masked position 1 gets weight exactly 0 and the weights sum to 1. -/
theorem costAttentionWeights_masked_zero_sum_one_witness :
    [true, false].length = [(0 : ℝ), 5].length ∧
    (costAttentionWeights [true, false] [(0 : ℝ), 5]).getD 1 1 = 0 ∧
    (costAttentionWeights [true, false] [(0 : ℝ), 5]).sum = 1 :=
  ⟨rfl,
   (costAttentionWeights_masked_zero_sum_one [true, false] [(0 : ℝ), 5]
      rfl).1 1 (by decide) (by decide),
   (costAttentionWeights_masked_zero_sum_one [true, false] [(0 : ℝ), 5]
      rfl).2 (by decide)⟩


/-- C6: the beam search the claim describes never executes — the code is
at fault: the search-mode prelude calls `init_beam_search(10)`, which
raises `AttributeError` at the never-assigned `self.generator` before
compiling any beam search, so the utterance loop (and with it the
`beam_search` method body carrying the `input_.shape[0] / 3` step cap and
the `ignore_first_eol=True` flag) is never reached; that body would
itself raise, dereferencing the never-assigned `self.recognizer`. -/
theorem searchMode_beam_search_unreachable :
    searchModeInit.2 = some "generator" ∧
    dictGet searchModeInit.1 "beam_search" = none ∧
    getattr searchModeInit.1 "recognizer" = Looked.attributeError ∧
    getattr initDict "recognizer" = Looked.attributeError := by
  refine ⟨by decide, by decide, by decide, by decide⟩

theorem chunksGo_nil (n fuel : ℕ) : chunksGo n fuel ([] : List α) = [] := by
  cases fuel <;> rfl

theorem chunksGo_flatten (n : ℕ) (hn : n ≠ 0) :
    ∀ (fuel : ℕ) (l : List α), l.length ≤ fuel →
      (chunksGo n fuel l).flatten = l := by
  intro fuel
  induction fuel with
  | zero =>
      intro l hl
      rw [List.length_eq_zero.mp (Nat.le_zero.mp hl)]
      rfl
  | succ f ih =>
      intro l hl
      cases l with
      | nil => rfl
      | cons x xs =>
          show ((x :: xs).take n :: chunksGo n f ((x :: xs).drop n)).flatten
            = x :: xs
          rw [List.flatten_cons, ih ((x :: xs).drop n)
            (by have hn1 : 1 ≤ n := Nat.one_le_iff_ne_zero.mpr hn
                simp only [List.length_drop, List.length_cons] at hl ⊢
                omega), List.take_append_drop]

theorem chunks_flatten (n : ℕ) (hn : n ≠ 0) (l : List α) :
    (chunks n l).flatten = l :=
  chunksGo_flatten n hn l.length l (Nat.le_refl _)

theorem chunksGo_size (n : ℕ) :
    ∀ (fuel : ℕ) (l : List α) (j : ℕ),
      j + 1 < (chunksGo n fuel l).length →
      ((chunksGo n fuel l).getD j []).length = n := by
  intro fuel
  induction fuel with
  | zero => intro l j hj; simp [chunksGo] at hj
  | succ f ih =>
      intro l j hj
      cases l with
      | nil => simp [chunksGo] at hj
      | cons x xs =>
          show (((x :: xs).take n :: chunksGo n f ((x :: xs).drop n)).getD j
            []).length = n
          cases j with
          | zero =>
              have hrest : chunksGo n f ((x :: xs).drop n) ≠ [] := by
                intro hemp
                simp only [chunksGo] at hj
                rw [hemp] at hj
                simp at hj
              have hdrop : (x :: xs).drop n ≠ [] := by
                intro hemp
                exact hrest (hemp ▸ chunksGo_nil n f)
              have hlen : n ≤ (x :: xs).length := by
                by_contra hlt
                exact hdrop (List.drop_eq_nil_of_le (le_of_not_le hlt))
              simpa using Nat.min_eq_left hlen
          | succ j =>
              have hj' : j + 1 < (chunksGo n f ((x :: xs).drop n)).length := by
                simpa [chunksGo] using hj
              simpa using ih ((x :: xs).drop n) j hj'

theorem flatten_map_mergeSort_perm (le : α → α → Bool) :
    ∀ L : List (List α),
      (L.map (fun c => c.mergeSort le)).flatten.Perm L.flatten := by
  intro L
  induction L with
  | nil => rfl
  | cons c rest ih =>
      simp only [List.map_cons, List.flatten_cons]
      exact (List.mergeSort_perm c le).append ih

theorem le_foldr_max (l : List ℕ) : ∀ x ∈ l, x ≤ l.foldr max 0 := by
  induction l with
  | nil => intro x hx; cases hx
  | cons a tl ih =>
      intro x hx
      rcases List.mem_cons.mp hx with rfl | hx
      · exact le_max_left _ _
      · exact le_trans (ih x hx) (le_max_right _ _)

theorem rec_len_le_batchMaxRec (chunk : List Example) :
    ∀ e ∈ chunk, e.1.length ≤ batchMaxRec chunk := by
  intro e he
  exact le_foldr_max _ _ (List.mem_map.mpr ⟨e, he, rfl⟩)

theorem transposeFirstTwo_getD (dflt : α) (m : List (List α)) (t i : ℕ)
    (ht : t < (m.headD []).length) (hi : i < m.length) :
    ((transposeFirstTwo dflt m).getD t []).getD i dflt
      = (m.getD i []).getD t dflt := by
  have h1 : (transposeFirstTwo dflt m).getD t []
      = m.map (fun row => row.getD t dflt) := by
    have htr : t < (List.range (m.headD []).length).length := by
      simpa using ht
    rw [transposeFirstTwo, List.getD_eq_getElem?_getD, List.getElem?_map,
      List.getElem?_eq_getElem htr]
    simp
  rw [h1]
  simp [List.getD_eq_getElem?_getD, List.getElem?_map,
    List.getElem?_eq_getElem hi]


/-- C7: every batch emitted by the batched data stream is the 4-tuple
`(padded features, feature mask, padded labels, label mask)` produced by
padding a chunk of examples and then transposing the first two axes of
every array, so the emitted arrays are time-major: position `(t, i)` of an
emitted array holds position `(i, t)` of the batch-major padded array. -/
theorem build_stream_time_major (prep : Recording → Recording)
    (nz : Option (Recording → Recording)) (dataset : List Example)
    (bs : ℕ) (sk : Option ℕ) (hbs : bs ≠ 0) :
    (∃ batches, build_stream prep nz dataset (some bs) sk
        = Except.ok (StreamResult.batches batches) ∧
      ∀ b ∈ batches, ∃ chunk : List Example,
        b = switch_first_two_axes (padBatch chunk)) ∧
    (∀ chunk : List Example, ∃ F M L LM,
      padBatch chunk = [NdArr.a3 F, NdArr.a2 M, NdArr.a2 L, NdArr.a2 LM] ∧
      switch_first_two_axes (padBatch chunk)
        = [NdArr.a3 (transposeFirstTwo [] F),
           NdArr.a2 (transposeFirstTwo 0 M),
           NdArr.a2 (transposeFirstTwo 0 L),
           NdArr.a2 (transposeFirstTwo 0 LM)]) ∧
    (∀ (m : List (List ℚ)) (t i : ℕ),
      t < (m.headD []).length → i < m.length →
      ((transposeFirstTwo (0 : ℚ) m).getD t []).getD i 0
        = (m.getD i []).getD t 0) ∧
    (∀ (m : List (List (List ℚ))) (t i : ℕ),
      t < (m.headD []).length → i < m.length →
      ((transposeFirstTwo ([] : List ℚ) m).getD t []).getD i []
        = (m.getD i []).getD t []) := by
  have htb : truthy (some bs) = true := by
    simp only [truthy, bne_iff_ne, ne_eq]
    exact hbs
  have key : ∀ (X : List Example),
      ∀ b ∈ (chunks bs X).map (fun c => switch_first_two_axes (padBatch c)),
      ∃ chunk, b = switch_first_two_axes (padBatch chunk) := by
    intro X b hb
    obtain ⟨c, _, rfl⟩ := List.mem_map.mp hb
    exact ⟨c, rfl⟩
  refine ⟨?_, ?_, ?_, ?_⟩
  · cases hsk : truthy sk with
    | false =>
        cases nz with
        | none =>
            refine ⟨_, ?_, key (dataset.map (apply_preprocessing prep))⟩
            simp only [build_stream, hsk, htb]
            rfl
        | some f =>
            refine ⟨_, ?_, key ((dataset.map
              (apply_preprocessing prep)).map (fun e => (f e.1, e.2)))⟩
            simp only [build_stream, hsk, htb]
            rfl
    | true =>
        cases nz with
        | none =>
            refine ⟨_, ?_, key ((sortStage bs (sk.getD 0) dataset).map
              (apply_preprocessing prep))⟩
            simp only [build_stream, hsk, htb]
            rfl
        | some f =>
            refine ⟨_, ?_, key (((sortStage bs (sk.getD 0) dataset).map
              (apply_preprocessing prep)).map (fun e => (f e.1, e.2)))⟩
            simp only [build_stream, hsk, htb]
            rfl
  · intro chunk
    exact ⟨_, _, _, _, rfl, rfl⟩
  · exact fun m t i ht hi => transposeFirstTwo_getD 0 m t i ht hi
  · exact fun m t i ht hi => transposeFirstTwo_getD [] m t i ht hi

/-- C7 (witness): with batch size 1 the stream emits axis-switched padded
batches, and the transposition is pointwise: entry `(1, 1)` of the
transposed `[[5, 6], [7, 8]]` is entry `(1, 1)` of the original. -/
theorem build_stream_time_major_witness :
    (∃ batches, build_stream id none [([[1]], [0])] (some 1) none
        = Except.ok (StreamResult.batches batches) ∧
      ∀ b ∈ batches, ∃ chunk : List Example,
        b = switch_first_two_axes (padBatch chunk)) ∧
    ((transposeFirstTwo (0 : ℚ) [[5, 6], [7, 8]]).getD 1 []).getD 1 0
      = (([[5, 6], [7, 8]] : List (List ℚ)).getD 1 []).getD 1 0 :=
  ⟨(build_stream_time_major id none [([[1]], [0])] 1 none
      (by decide)).1,
   (build_stream_time_major id none [([[1]], [0])] 1 none
      (by decide)).2.2.1 [[5, 6], [7, 8]] 1 1 (by decide) (by decide)⟩

/-- C8: with a sort window configured, a falsy batch size fails the
assertion; with batch size unset the stream yields the unbatched,
unpadded preprocessed examples; the stream partitions examples into
chunks (of `batch_size * sort_k_batches` for sorting, of `batch_size`
for batching) whose non-final chunks have exactly the configured size and
whose concatenation is the original sequence; every sort window is
emitted sorted ascending by the feature sequence length, as a
permutation of its input; and within a batch every sequence is padded to
the batch's max time length, keeping its own frames as a prefix, with a
mask of matching length. -/
theorem build_stream_sort_window (prep : Recording → Recording)
    (nz : Option (Recording → Recording)) (dataset : List Example)
    (bs k : ℕ) (hbs : bs ≠ 0) (hk : k ≠ 0) :
    (build_stream prep nz dataset none (some k)
      = Except.error "assert batch_size") ∧
    (build_stream prep none dataset none none
      = Except.ok (StreamResult.examples
          (dataset.map (apply_preprocessing prep)))) ∧
    (∀ (m : ℕ), m ≠ 0 → ∀ l : List Example, (chunks m l).flatten = l ∧
      (∀ j, j + 1 < (chunks m l).length →
        ((chunks m l).getD j []).length = m)) ∧
    (∀ c ∈ chunks (bs * k) dataset,
      (c.mergeSort (fun e₁ e₂ => decide (exLength e₁ ≤ exLength e₂))).Pairwise
        (fun e₁ e₂ => exLength e₁ ≤ exLength e₂) ∧
      (c.mergeSort (fun e₁ e₂ => decide (exLength e₁ ≤ exLength e₂))).Perm c) ∧
    (sortStage bs k dataset).Perm dataset ∧
    (∀ chunk : List Example, ∀ e ∈ chunk,
      (padTo (batchMaxRec chunk)
        (List.replicate (e.1.headD []).length 0) e.1).length
          = batchMaxRec chunk ∧
      (padTo (batchMaxRec chunk)
        (List.replicate (e.1.headD []).length 0) e.1).take e.1.length
          = e.1 ∧
      (maskRow (batchMaxRec chunk) e.1.length).length
        = batchMaxRec chunk) := by
  refine ⟨?_, rfl, ?_, ?_, ?_, ?_⟩
  · have hkt : truthy (some k) = true := by
      simp only [truthy, bne_iff_ne, ne_eq]
      exact hk
    simp only [build_stream, hkt]
    rfl
  · intro m hm l
    exact ⟨chunks_flatten m hm l,
      fun j hj => chunksGo_size m l.length l j hj⟩
  · intro c hc
    constructor
    · refine (List.sorted_mergeSort ?_ ?_ c).imp (fun h => of_decide_eq_true h)
      · intro a b c h1 h2
        exact decide_eq_true
          (le_trans (of_decide_eq_true h1) (of_decide_eq_true h2))
      · intro a b
        simp only [Bool.or_eq_true, decide_eq_true_eq]
        exact Nat.le_total _ _
    · exact List.mergeSort_perm c _
  · refine (flatten_map_mergeSort_perm _ (chunks (bs * k) dataset)).trans ?_
    rw [chunks_flatten (bs * k) (Nat.mul_ne_zero hbs hk) dataset]
  · intro chunk e he
    have hle := rec_len_le_batchMaxRec chunk e he
    refine ⟨?_, ?_, ?_⟩
    · simp only [padTo, List.length_append, List.length_replicate]
      omega
    · exact List.take_left' rfl
    · simp only [maskRow, List.length_append, List.length_replicate]
      omega

/-- C8 (witness): with `batch_size=None` and `sort_k_batches=1`, the
stream construction fails the assertion; the single-window sort of a
one-example dataset is a permutation of it; and the grouping into chunks
of 2 partitions a 3-example list. -/
theorem build_stream_sort_window_witness :
    build_stream id none [([[1]], [0])] none (some 1)
      = Except.error "assert batch_size" ∧
    (sortStage 1 1 [([[1]], [0])]).Perm [([[1]], [0])] ∧
    (chunks 2 [(([[1]], [0]) : Example), ([[1], [2]], [1]),
      ([[3]], [2])]).flatten
      = [(([[1]], [0]) : Example), ([[1], [2]], [1]), ([[3]], [2])] :=
  ⟨(build_stream_sort_window id none [([[1]], [0])] 1 1
      (by decide) (by decide)).1,
   (build_stream_sort_window id none [([[1]], [0])] 1 1
      (by decide) (by decide)).2.2.2.2.1,
   ((build_stream_sort_window id none [([[1]], [0])] 1 1
      (by decide) (by decide)).2.2.1 2 (by decide)
      [(([[1]], [0]) : Example), ([[1], [2]], [1]), ([[3]], [2])]).1⟩

end Firsttry
